import Mathlib

/-!
Verification of the pg_search_benchmark repository against its specification.

The development shallowly embeds, in exact arithmetic:

* the relevance scorer `calculateRelevanceScore` and the NDCG scorer `calculateNDCG`
  of server.js (JS strings become `List Char`, JS numbers become `ℚ`, and the one
  transcendental computation of the DCG loop, `Math.pow(2, score)` over `Math.log2`,
  becomes real `rpow` over `Real.logb`);
* the benchmark-script scorer `calculateRelevance` and dispatcher `runVanillaQuery`;
* the search dispatchers `runVanillaSearch` / `runParadeSearch` and the
  `/api/benchmark` handler of server.js, with the database engine abstracted as an
  outcome oracle (`Except` for a raised error versus returned rows) and wall-clock
  durations as oracle parameters, since neither is computable from the inputs;
* the Go ingestion pipeline of ingest-amazon-data.go (`insertBatch` and the
  producer loop of `processAmazonData`), with the store again abstracted as a
  per-record acceptance oracle.

String literals are bound to named constants of type `List Char` before use.
-/

set_option maxRecDepth 8000

namespace PgBench

/-! ## JS string primitives -/

/-- The character class of the JS regex `\s` (ASCII part; queries and the corpus used by
the repository are ASCII, and `String.prototype.toLowerCase` likewise only moves the
ASCII range for these inputs). -/
def jsIsSpace (c : Char) : Bool :=
  c = ' ' || c = '\t' || c = '\n' || c = '\r' || c = '\x0b' || c = '\x0c'

/-- JS `toLowerCase`, character by character. -/
def lowerStr (s : List Char) : List Char := s.map Char.toLower

mutual

/-- State of `split(/\s+/)` while inside a field: `cur` holds the reversed field read so
far; a whitespace character ends the field and a run of whitespace is one separator. -/
def jsSplitField (s : List Char) (cur : List Char) : List (List Char) :=
  match s with
  | [] => [cur.reverse]
  | c :: rest =>
    if jsIsSpace c then cur.reverse :: jsSplitSep rest else jsSplitField rest (c :: cur)

/-- State of `split(/\s+/)` while inside a whitespace run: further whitespace extends the
separator; end of input yields a trailing empty field, as in JS. -/
def jsSplitSep (s : List Char) : List (List Char) :=
  match s with
  | [] => [[]]
  | c :: rest => if jsIsSpace c then jsSplitSep rest else jsSplitField rest [c]

end

/-- JS `split(/\s+/)`: fields between maximal whitespace runs; a leading or trailing run
contributes an empty field exactly as in JS (so the result is never empty). -/
def jsSplitWs (s : List Char) : List (List Char) := jsSplitField s []

/-- JS `haystack.includes(needle)`: some suffix of the haystack starts with the needle. -/
def jsIncludes (needle : List Char) : List Char → Bool
  | [] => needle.isEmpty
  | c :: rest => needle.isPrefixOf (c :: rest) || jsIncludes needle rest

/-- The character class of the JS regex `\w`. -/
def isWordChar (c : Char) : Bool := c.isAlpha || c.isDigit || c = '_'

/-- Whether the character at offset `i` of `text` exists and is a word character. -/
def charIsWordAt (text : List Char) (i : ℕ) : Bool :=
  match text[i]? with
  | some c => isWordChar c
  | none => false

/-- A `\b` word boundary of the JS regex engine at offset `i` (0 ≤ i ≤ length): word-ness
differs between the position before `i` (false at the start of the string) and at `i`
(false at the end of the string). -/
def jsBoundaryAt (text : List Char) (i : ℕ) : Bool :=
  (decide (0 < i) && charIsWordAt text (i - 1)) != charIsWordAt text i

/-- Whether `term` occurs verbatim at offset `i` of `text`. -/
def occursAt (term text : List Char) (i : ℕ) : Bool :=
  ((text.drop i).take term.length) == term

/-- The test `new RegExp('\\b' + term + '\\b', 'i').test(text)` of the scorers, for a
term made of word characters (the scorers lowercase both sides first, so the `i` flag
is immaterial): some occurrence of the term carries word boundaries on both sides. -/
def jsWordBoundaryTest (term text : List Char) : Bool :=
  (List.range (text.length + 1)).any fun i =>
    occursAt term text i && jsBoundaryAt text i && jsBoundaryAt text (i + term.length)

/-- JS `Math.round`: half-up, `⌊x + 1/2⌋`. -/
def jsRound (x : ℚ) : ℤ := ⌊x + 1 / 2⌋

/-! ## Result rows

A search result row as consumed by the scorers. Only the three text columns enter any
scoring computation; `none` models a row object without that field (for example the
benchmark queries select no `description`), which the scorers coalesce to the empty
string via `result.field || ''`. -/

structure Row where
  title : Option (List Char)
  description : Option (List Char)
  brand : Option (List Char)
deriving DecidableEq

/-! ## server.js calculateRelevanceScore (lines 332-378) -/

/-- The haystack of one result: `title ++ ' ' ++ description ++ ' ' ++ brand`, lowercased
(server.js line 339). -/
def rowText (r : Row) : List Char :=
  lowerStr (r.title.getD [] ++ [' '] ++ r.description.getD [] ++ [' '] ++ r.brand.getD [])

/-- The terms `query.toLowerCase().split(/\s+/)` (server.js line 335). -/
def queryTermsOf (query : List Char) : List (List Char) := jsSplitWs (lowerStr query)

/-- What one query term adds to `matchScore` (server.js lines 344-355): 2 points when the
term also matches at a word boundary, otherwise 1 point for a plain substring match,
otherwise nothing. -/
def termPoints (term text : List Char) : ℕ :=
  if jsIncludes term text then (if jsWordBoundaryTest term text then 2 else 1) else 0

/-- The `matchScore` accumulated over all query terms for one result. -/
def matchScoreOf (terms : List (List Char)) (text : List Char) : ℕ :=
  (terms.map (fun t => termPoints t text)).sum

/-- The `termMatches` counter: how many query terms occur as a substring. -/
def termMatchesOf (terms : List (List Char)) (text : List Char) : ℕ :=
  terms.countP (fun t => jsIncludes t text)

/-- The `titleBonus`: 3 points per query term contained in the lowercased title
(server.js lines 363-368). -/
def titleBonusOf (terms : List (List Char)) (r : Row) : ℕ :=
  3 * terms.countP (fun t => jsIncludes t (lowerStr (r.title.getD [])))

/-- The `resultScore` one result at 0-indexed `position` adds to `totalScore`
(server.js lines 338-372): `(matchScore + titleBonus) * termCoverage * positionWeight`
with `termCoverage = termMatches / terms.length` and `positionWeight = 1/(position+1)`. -/
def resultScoreAt (terms : List (List Char)) (position : ℕ) (r : Row) : ℚ :=
  let text := rowText r
  let termCoverage : ℚ := (termMatchesOf terms text : ℚ) / (terms.length : ℚ)
  let positionWeight : ℚ := 1 / ((position : ℚ) + 1)
  ((matchScoreOf terms text : ℚ) + (titleBonusOf terms r : ℚ)) * termCoverage * positionWeight

/-- server.js `calculateRelevanceScore` (lines 332-378) in exact rational arithmetic:
sum the per-result scores and normalize by `results.length * terms.length * 5`, capped
at 100 by `Math.min`. -/
def calculateRelevanceScore (results : List Row) (query : List Char) : ℚ :=
  if results.isEmpty then 0
  else
    let queryTerms := queryTermsOf query
    let totalScore : ℚ := (results.enum.map (fun p => resultScoreAt queryTerms p.1 p.2)).sum
    let maxPossibleScore : ℚ := (results.length : ℚ) * (queryTerms.length : ℚ) * 5
    min 100 (totalScore / maxPossibleScore * 100)

/-- The guard `if (!results || results.length === 0) return 0` also catches a JS
`null`/`undefined` argument, modelled as `none`. -/
def calculateRelevanceScoreNullable (results : Option (List Row)) (query : List Char) : ℚ :=
  match results with
  | none => 0
  | some rs => calculateRelevanceScore rs query

/-! ## server.js calculateNDCG (lines 381-421) -/

/-- Graded relevance of one result (server.js lines 388-401): per query term, 3 points
for a title substring hit, 1 for description, 2 for brand, normalized by
`terms.length * 6` to the unit interval. -/
def ndcgRelevance (terms : List (List Char)) (r : Row) : ℚ :=
  let score : ℕ := (terms.map (fun term =>
    (if jsIncludes term (lowerStr (r.title.getD [])) then 3 else 0) +
    (if jsIncludes term (lowerStr (r.description.getD [])) then 1 else 0) +
    (if jsIncludes term (lowerStr (r.brand.getD [])) then 2 else 0))).sum
  (score : ℚ) / ((terms.length : ℚ) * 6)

/-- The `relevanceScores` array over the top-K slice, with the default `k = 10` used by
the only call site in the repository. -/
def ndcgScores (results : List Row) (query : List Char) : List ℚ :=
  (results.take 10).map (ndcgRelevance (queryTermsOf query))

/-- One DCG summand: `(2^score - 1) / Math.log2(position + 1)` at 1-indexed
`position = i + 1`, so the denominator at 0-indexed `i` is `log2(i + 2)`. -/
noncomputable def gain (s : ℚ) : ℝ := (2 : ℝ) ^ (s : ℝ) - 1

/-- The DCG discount denominator at 0-indexed position `i`. -/
noncomputable def dcgDenom (i : ℕ) : ℝ := Real.logb 2 ((i : ℝ) + 2)

/-- The DCG accumulation loop of server.js lines 404-409 (and 412-417), started at
0-indexed position `k`. -/
noncomputable def dcgFrom (k : ℕ) : List ℚ → ℝ
  | [] => 0
  | s :: rest => gain s / dcgDenom k + dcgFrom (k + 1) rest

/-- The JS `[...relevanceScores].sort((a, b) => b - a)`: a descending sort. `ℚ` is
linearly ordered, so every sorting algorithm returns the same list; insertion sort is
used as the model. -/
def sortDesc (l : List ℚ) : List ℚ := l.insertionSort (· ≥ ·)

noncomputable def ndcgDCG (scores : List ℚ) : ℝ := dcgFrom 0 scores

/-- The ideal DCG: the same loop over the scores sorted descending. -/
noncomputable def ndcgIDCG (scores : List ℚ) : ℝ := dcgFrom 0 (sortDesc scores)

open Classical in
/-- server.js `calculateNDCG` (lines 381-421): 0 on an empty result set, 0 when the
ideal DCG is 0 (the `idcg === 0 ? 0 : ...` guard), else `dcg / idcg * 100`. -/
noncomputable def calculateNDCG (results : List Row) (query : List Char) : ℝ :=
  if results.isEmpty then 0
  else
    if ndcgIDCG (ndcgScores results query) = 0 then 0
    else ndcgDCG (ndcgScores results query) / ndcgIDCG (ndcgScores results query) * 100

/-- As for the relevance scorer, the `!results` half of the guard. -/
noncomputable def calculateNDCGNullable (results : Option (List Row)) (query : List Char) : ℝ :=
  match results with
  | none => 0
  | some rs => calculateNDCG rs query

/-! ## benchmark-script calculateRelevance (part_002 lines 318-355) -/

/-- JS `replace(/[^\w\s]/g, '')`: drop every character outside `\w` and `\s`. -/
def stripNonWordSpace (s : List Char) : List Char :=
  s.filter (fun c => isWordChar c || jsIsSpace c)

def colonStr : List Char := [':']

/-- Search terms of the benchmark scorer (part_002 lines 321-332): when the query splits
on a colon into exactly two parts, the lowercased payload is the single term; otherwise
lowercase, strip punctuation, split on whitespace. -/
def benchSearchTerms (query : List Char) : List (List Char) :=
  if jsIncludes colonStr query then
    let fieldQuery := query.splitOn ':'
    if fieldQuery.length = 2 then [lowerStr (fieldQuery.getD 1 [])]
    else jsSplitWs (stripNonWordSpace (lowerStr query))
  else jsSplitWs (stripNonWordSpace (lowerStr query))

/-- The benchmark-scorer haystack: `title ++ ' ' ++ brand ++ ' ' ++ description`,
lowercased (part_002 line 337; note the field order differs from server.js). -/
def benchRowText (r : Row) : List Char :=
  lowerStr (r.title.getD [] ++ [' '] ++ r.brand.getD [] ++ [' '] ++ r.description.getD [])

/-- Points per term in the benchmark scorer (part_002 lines 340-348): 2 for a substring
match plus another 3 on top when the term also matches at a word boundary. -/
def benchTermPoints (term text : List Char) : ℕ :=
  if jsIncludes term text then 2 + (if jsWordBoundaryTest term text then 3 else 0) else 0

/-- The benchmark-scorer `matchScore` accumulated over all terms. -/
def benchMatchScoreOf (terms : List (List Char)) (text : List Char) : ℕ :=
  (terms.map (fun t => benchTermPoints t text)).sum

/-- part_002 `calculateRelevance` (lines 318-355): position-weighted match scores summed
over all results, rounded by `Math.round`. -/
def calculateRelevance (results : List Row) (query : List Char) : ℤ :=
  if results.isEmpty then 0
  else
    jsRound ((results.enum.map (fun p =>
      (benchMatchScoreOf (benchSearchTerms query) (benchRowText p.2) : ℚ) *
        (1 / ((p.1 : ℚ) + 1)))).sum)

/-! ## server.js search dispatchers (lines 34-176 and 178-329) -/

def fulltextStr : List Char := "fulltext".toList
def booleanStr : List Char := "boolean".toList
def fieldStr : List Char := "field".toList
def likeStr : List Char := "like".toList
def exactStr : List Char := "exact".toList
def fuzzyStr : List Char := "fuzzy".toList
def titleStr : List Char := "title".toList
def descriptionStr : List Char := "description".toList
def brandStr : List Char := "brand".toList
def titleTagStr : List Char := "title:".toList
def descriptionTagStr : List Char := "description:".toList
def brandTagStr : List Char := "brand:".toList
def pgEngineStr : List Char := "PostgreSQL Full-Text Search".toList
def paradeEngineStr : List Char := "ParadeDB BM25 Search".toList

/-- The `field` column picked by the vanilla `field` branch (server.js lines 93-95). -/
def fieldNameOf (query : List Char) : List Char :=
  if jsIncludes titleTagStr query then titleStr
  else if jsIncludes descriptionTagStr query then descriptionStr
  else if jsIncludes brandTagStr query then brandStr
  else titleStr

mutual

/-- JS `query.replace(WORDRUN_COLON, '')` (server.js line 96), where the pattern is one
or more word characters followed by a colon: scan for the leftmost match and remove it.
Word characters and the colon are disjoint, so the regex matches at a position exactly
when the maximal word run there is nonempty and immediately followed by a colon. -/
def removeFieldTag : List Char → List Char
  | [] => []
  | c :: rest => if isWordChar c then removeTagRun [c] rest else c :: removeFieldTag rest

/-- Inside a word run (`pre` holds the reversed run read so far): a colon right after the
run completes the one replaced match; any other end of run emits the run and resumes the
scan, which cannot match inside the run it just rejected. -/
def removeTagRun (pre : List Char) : List Char → List Char
  | [] => pre.reverse
  | c :: rest =>
    if isWordChar c then removeTagRun (c :: pre) rest
    else if c = ':' then rest
    else pre.reverse ++ (c :: removeFieldTag rest)

end

/-- The query-construction branch selected by the vanilla dispatcher; the constructors
mirror the switch cases of server.js lines 40-164. The SQL text of each branch is
engine-facing and out of core scope (spec section 4.4); the values the branch computes
from the query are carried. -/
inductive VanillaBranch
  | fulltextB
  | booleanB
  | fieldB (field : List Char) (searchTerm : List Char)
  | likeB
  | exactB
  | defaultB
deriving DecidableEq

def vanillaBranchOf (query searchType : List Char) : VanillaBranch :=
  if searchType = fulltextStr then .fulltextB
  else if searchType = booleanStr then .booleanB
  else if searchType = fieldStr then .fieldB (fieldNameOf query) (removeFieldTag query)
  else if searchType = likeStr then .likeB
  else if searchType = exactStr then .exactB
  else .defaultB

/-- The case labels handled by the server.js switches (note `like` here, versus `fuzzy`
in the benchmark script). -/
def serverSearchTypes : List (List Char) :=
  [fulltextStr, booleanStr, fieldStr, likeStr, exactStr]

def caretTwoDescStr : List Char := "^2 OR description:".toList
def orBrandStr : List Char := " OR brand:".toList
def caretOnePointFiveStr : List Char := "^1.5".toList
def quoteTitleTagStr : List Char := "title:\"".toList
def exactSegTwoStr : List Char := "\"^2 OR description:\"".toList
def exactSegThreeStr : List Char := "\" OR brand:\"".toList
def exactSegFourStr : List Char := "\"^1.5".toList
def defaultSegTwoStr : List Char := "\" OR description:\"".toList
def dquoteOnlyStr : List Char := "\"".toList
def spaceStr : List Char := [' ']

/-- The boosted multi-field `searchQuery` of the parade fulltext branch (line 189). -/
def paradeFulltextQuery (q : List Char) : List Char :=
  titleTagStr ++ q ++ caretTwoDescStr ++ q ++ orBrandStr ++ q ++ caretOnePointFiveStr

/-- The boosted phrase `searchQuery` of the parade exact branch (line 292). -/
def paradeExactQuery (q : List Char) : List Char :=
  quoteTitleTagStr ++ q ++ exactSegTwoStr ++ q ++ exactSegThreeStr ++ q ++ exactSegFourStr

/-- The unboosted multi-field phrase `searchQuery` of the parade default branch
(line 307). -/
def paradeDefaultQuery (q : List Char) : List Char :=
  quoteTitleTagStr ++ q ++ defaultSegTwoStr ++ q ++ exactSegThreeStr ++ q ++ dquoteOnlyStr

/-- The branch selected by the parade dispatcher (server.js lines 185-316). The boolean
branch rewrites the query through a regex callback and the field/like branches pass the
raw query to engine-specific functions; those strings are engine-facing and only the
branch identity is carried for them. -/
inductive ParadeBranch
  | fulltextP (searchQuery : List Char)
  | booleanP
  | fieldP
  | likeSingleP
  | likeMultiP
  | exactP (searchQuery : List Char)
  | defaultP (searchQuery : List Char)
deriving DecidableEq

def paradeBranchOf (query searchType : List Char) : ParadeBranch :=
  if searchType = fulltextStr then .fulltextP (paradeFulltextQuery query)
  else if searchType = booleanStr then .booleanP
  else if searchType = fieldStr then .fieldP
  else if searchType = likeStr then
    (if jsIncludes spaceStr query then .likeMultiP else .likeSingleP)
  else if searchType = exactStr then .exactP (paradeExactQuery query)
  else .defaultP (paradeDefaultQuery query)

/-- What either server.js dispatcher returns on success: rows, wall-clock duration,
`rowCount`, the branch taken, and the engine label. -/
structure SearchResponse (β : Type) where
  results : List Row
  duration : ℕ
  count : ℕ
  branch : β
  engine : List Char

/-- server.js `runVanillaSearch` (lines 34-176). The engine call is an oracle: a raised
database error propagates out of the async function (there is no try/catch here); a
successful call yields the response. Wall-clock duration is likewise an oracle value. -/
def runVanillaSearch (query searchType : List Char)
    (outcome : Except (List Char) (List Row)) (elapsedMs : ℕ) :
    Except (List Char) (SearchResponse VanillaBranch) :=
  match outcome with
  | .error e => .error e
  | .ok rows => .ok ⟨rows, elapsedMs, rows.length, vanillaBranchOf query searchType, pgEngineStr⟩

/-- server.js `runParadeSearch` (lines 178-329), same shape. -/
def runParadeSearch (query searchType : List Char)
    (outcome : Except (List Char) (List Row)) (elapsedMs : ℕ) :
    Except (List Char) (SearchResponse ParadeBranch) :=
  match outcome with
  | .error e => .error e
  | .ok rows => .ok ⟨rows, elapsedMs, rows.length, paradeBranchOf query searchType, paradeEngineStr⟩

/-! ## server.js /api/benchmark handler (lines 423-496) -/

/-- One engine side after the handler's try/catch: either the dispatcher response or the
substituted `{results: [], duration: 0, count: 0, error}` object. -/
structure CaughtSearch where
  results : List Row
  duration : ℕ
  count : ℕ
  error : Option (List Char)

/-- One engine side of the JSON response, with the two scores attached (the response
serializes them through toFixed, which only formats; the raw values are carried). -/
structure ScoredSide where
  results : List Row
  duration : ℕ
  count : ℕ
  error : Option (List Char)
  relevanceScore : ℚ
  ndcgScore : ℝ

def tieStr : List Char := "tie".toList
def vanillaStr : List Char := "vanilla".toList
def paradeStr : List Char := "parade".toList

structure BenchPayload where
  vanilla : ScoredSide
  parade : ScoredSide
  accuracyWinner : List Char
  accuracyDifference : ℝ
  speedup : Option ℚ

/-- The handler either rejects a missing/empty query with HTTP 400 or answers 200 with a
payload. -/
inductive HandlerResult
  | badRequest
  | ok (payload : BenchPayload)

/-- The try/catch around the vanilla dispatcher call (handler lines 433-438): a raised
error becomes the `{results: [], duration: 0, count: 0, error}` substitute. -/
def caughtVanilla (query searchType : List Char) (outcome : Except (List Char) (List Row))
    (ms : ℕ) : CaughtSearch :=
  match runVanillaSearch query searchType outcome ms with
  | .ok r => ⟨r.results, r.duration, r.count, none⟩
  | .error e => ⟨[], 0, 0, some e⟩

/-- The try/catch around the parade dispatcher call (handler lines 440-445). -/
def caughtParade (query searchType : List Char) (outcome : Except (List Char) (List Row))
    (ms : ℕ) : CaughtSearch :=
  match runParadeSearch query searchType outcome ms with
  | .ok r => ⟨r.results, r.duration, r.count, none⟩
  | .error e => ⟨[], 0, 0, some e⟩

/-- Attach the two scores to one caught side (handler lines 447-453 and 474-483). -/
noncomputable def scoredSide (c : CaughtSearch) (query : List Char) : ScoredSide :=
  ⟨c.results, c.duration, c.count, c.error,
    calculateRelevanceScore c.results query, calculateNDCG c.results query⟩

open Classical in
/-- The accuracy winner and difference with the 5-point threshold (lines 455-465). -/
noncomputable def accuracyWinnerOf (vNDCG pNDCG : ℝ) : List Char × ℝ :=
  if vNDCG > pNDCG + 5 then (vanillaStr, vNDCG - pNDCG)
  else if pNDCG > vNDCG + 5 then (paradeStr, pNDCG - vNDCG)
  else (tieStr, 0)

/-- The duration ratio, reported only when both durations are positive (lines 467-469). -/
def speedupOf (vMs pMs : ℕ) : Option ℚ :=
  if 0 < vMs ∧ 0 < pMs then some ((vMs : ℚ) / (pMs : ℚ)) else none

/-- The `/api/benchmark` handler (server.js lines 423-496): reject a falsy query with
HTTP 400; run each engine inside its own try/catch, substituting the zeroed error object
on a raised error; score both sides; pick the accuracy winner; report the speedup. -/
noncomputable def benchmarkHandler (query searchType : List Char)
    (vOutcome pOutcome : Except (List Char) (List Row)) (vMs pMs : ℕ) : HandlerResult :=
  if query.isEmpty then .badRequest
  else
    let v := caughtVanilla query searchType vOutcome vMs
    let p := caughtParade query searchType pOutcome pMs
    let vSide := scoredSide v query
    let pSide := scoredSide p query
    let acc := accuracyWinnerOf vSide.ndcgScore pSide.ndcgScore
    .ok ⟨vSide, pSide, acc.1, acc.2, speedupOf v.duration p.duration⟩

/-! ## benchmark-script query dispatcher and read loop (part_002 lines 130-210, 513-557) -/

/-- What part_002 runVanillaQuery returns: duration, rowCount, rows, optional error. -/
structure QueryResult where
  duration : ℕ
  count : ℕ
  results : List Row
  error : Option (List Char)
deriving DecidableEq

/-- The switch cases of part_002 runVanillaQuery; the field branch destructures
`query.split(':')` into its first two components. -/
inductive VQBranch
  | vqFulltext
  | vqBoolean
  | vqField (field : List Char) (term : Option (List Char))
  | vqFuzzy
  | vqExact
deriving DecidableEq

/-- The search types the benchmark-script switch handles (note `fuzzy` here, versus
`like` in server.js). -/
def benchSearchTypes : List (List Char) :=
  [fulltextStr, booleanStr, fieldStr, fuzzyStr, exactStr]

def vqBranchOf (query searchType : List Char) : Option VQBranch :=
  if searchType = fulltextStr then some .vqFulltext
  else if searchType = booleanStr then some .vqBoolean
  else if searchType = fieldStr then
    some (.vqField ((query.splitOn ':').headD []) (query.splitOn ':')[1]?)
  else if searchType = fuzzyStr then some .vqFuzzy
  else if searchType = exactStr then some .vqExact
  else none

/-- part_002 `runVanillaQuery` (lines 130-210). The try block catches the engine error
and returns `{duration: 0, count: 0, results: [], error}`; a successful call yields the
rows. `none` models the crash on an unhandled search type: no case assigns `result`, and
reading `result.rowCount` after the try block throws. -/
def runVanillaQuery (query searchType : List Char)
    (outcome : Except (List Char) (List Row)) (elapsedMs : ℕ) : Option QueryResult :=
  match vqBranchOf query searchType with
  | none => none
  | some _ =>
    match outcome with
    | .error e => some ⟨0, 0, [], some e⟩
    | .ok rows => some ⟨elapsedMs, rows.length, rows, none⟩

/-- Per-search-type accumulator of the read loop (part_002 lines 529-532). -/
structure EngineAgg where
  totalTime : ℕ
  totalRelevance : ℤ
  queries : ℕ
deriving DecidableEq

/-- Lines 543-553: an errored result is excluded from the accumulation, a clean result
adds its duration and relevance and bumps the query counter. -/
def stepAgg (agg : EngineAgg) (qr : QueryResult) (rel : ℤ) : EngineAgg :=
  if qr.error.isNone then
    ⟨agg.totalTime + qr.duration, agg.totalRelevance + rel, agg.queries + 1⟩
  else agg

def benchLoopAux (vres pres : List Char → Option QueryResult) :
    List (List Char) → EngineAgg → EngineAgg → Option (EngineAgg × EngineAgg)
  | [], va, pa => some (va, pa)
  | q :: rest, va, pa =>
    match vres q, pres q with
    | some v, some p =>
      benchLoopAux vres pres rest (stepAgg va v (calculateRelevance v.results q))
        (stepAgg pa p (calculateRelevance p.results q))
    | _, _ => none

/-- The read loop of part_002 runBenchmark over one search type (lines 534-554): run both
dispatchers on every query in order, score, accumulate. The dispatchers are oracles from
the query to their result; a `none` (dispatcher crash) rejects the whole run, an
error-carrying result merely skips the accumulation for that cell. -/
def benchLoop (vres pres : List Char → Option QueryResult) (qs : List (List Char)) :
    Option (EngineAgg × EngineAgg) :=
  benchLoopAux vres pres qs ⟨0, 0, 0⟩ ⟨0, 0, 0⟩

/-! ## ingest-amazon-data.go -/

/-- One value of the `categories` JSON array as the Go loop sees it: a plain string, a
nested list (whose non-string elements are `none` and are skipped), or any other value
(skipped outright). -/
inductive CatVal
  | strV (s : List Char)
  | arrV (elems : List (Option (List Char)))
  | otherV
deriving DecidableEq

/-- The decoded `Product` struct of ingest-amazon-data.go. `json.Marshal(p.SalesRank)` is
an external library call, so the serialized form it would produce is carried opaquely in
`salesRankJson`. -/
structure GoProduct where
  asin : List Char
  title : List Char
  description : List Char
  price : List Char
  brand : List Char
  categories : List CatVal
  salesRankJson : List Char
  imageURL : List Char
deriving DecidableEq

/-- The two sequential `strings.ReplaceAll` escapes inside insertBatch (backslash
doubled first, then the double quote escaped); both act on single characters, so their
composition is this single character map. -/
def escapePg (s : List Char) : List Char :=
  s.flatMap fun c =>
    if c = '\\' then ['\\', '\\'] else if c = '"' then ['\\', '"'] else [c]

/-- The flattening loop of insertBatch lines 189-206. -/
def categoryStrings (cats : List CatVal) : List (List Char) :=
  cats.flatMap fun cv =>
    match cv with
    | .strV s => [escapePg s]
    | .arrV es => es.filterMap (fun e => e.map escapePg)
    | .otherV => []

def emptyBracesStr : List Char := "{}".toList
def openQuoteStr : List Char := "\x7b\"".toList
def sepQuoteStr : List Char := "\",\"".toList
def closeQuoteStr : List Char := "\"\x7d".toList

/-- The `categoriesArray` literal of insertBatch lines 186-214. -/
def formatCategories (cats : List CatVal) : List Char :=
  if cats.isEmpty then emptyBracesStr
  else
    let cs := categoryStrings cats
    if cs.isEmpty then emptyBracesStr
    else openQuoteStr ++ List.intercalate sepQuoteStr cs ++ closeQuoteStr

def unknownStr : List Char := "Unknown".toList
def nullLiteralStr : List Char := "null".toList
def zeroStr : List Char := "0".toList

/-- The eight column values bound by one `stmt.Exec`. -/
structure InsertedRow where
  asin : List Char
  title : List Char
  description : List Char
  price : List Char
  brand : List Char
  categoriesArray : List Char
  salesRank : List Char
  imageURL : List Char
deriving DecidableEq

/-- The per-record normalization inside the insertBatch loop (lines 185-234): category
formatting, `Brand = "Unknown"` when empty, `Price = "0"` when empty or the literal
string null. -/
def toInsertedRow (p : GoProduct) : InsertedRow :=
  ⟨p.asin, p.title, p.description,
    (if p.price = [] ∨ p.price = nullLiteralStr then zeroStr else p.price),
    (if p.brand = [] then unknownStr else p.brand),
    formatCategories p.categories, p.salesRankJson, p.imageURL⟩

/-- The record loop of insertBatch: a row the store rejects (`execOk` false, the
`stmt.Exec` error) is logged and skipped; the loop never aborts. -/
def insertLoop (execOk : InsertedRow → Bool) : List GoProduct → List InsertedRow
  | [] => []
  | p :: rest =>
    let row := toInsertedRow p
    if execOk row then row :: insertLoop execOk rest else insertLoop execOk rest

/-- Whether the transaction committed, and the rows it persisted. -/
structure BatchOutcome where
  rows : List InsertedRow
  committed : Bool
deriving DecidableEq

/-- ingest-amazon-data.go `insertBatch` (lines 164-242): an empty batch returns before
opening a transaction; otherwise one transaction runs the record loop and commits.
`execOk` is the store oracle for accepting one row; transaction-level (Begin, Prepare,
Commit) failures are whole-batch failures outside the per-record semantics embedded
here. -/
def insertBatch (execOk : InsertedRow → Bool) (products : List GoProduct) : BatchOutcome :=
  if products.isEmpty then ⟨[], true⟩
  else ⟨insertLoop execOk products, true⟩

/-- The scan of Go `strings.ReplaceAll`, consuming one character per step so that the
definition is structural: with `skip = 0` the scanner is between matches and tries the
needle at the current position, emitting the replacement and entering the matched span
on success; with `skip > 0` it is still consuming the remainder of a matched needle.
This yields the Go semantics: leftmost-first, non-overlapping. -/
def replaceAllAux (needle repl : List Char) : List Char → ℕ → List Char
  | [], _ => []
  | c :: rest, 0 =>
    if needle ≠ [] ∧ needle.isPrefixOf (c :: rest) then
      repl ++ replaceAllAux needle repl rest (needle.length - 1)
    else c :: replaceAllAux needle repl rest 0
  | _ :: rest, skip + 1 => replaceAllAux needle repl rest skip

/-- Go `strings.ReplaceAll`. All needles used below are nonempty; the emptiness guard in
the scanner only fences off the degenerate case Go treats differently. -/
def replaceAll (needle repl : List Char) (s : List Char) : List Char :=
  replaceAllAux needle repl s 0

def squoteStr : List Char := [Char.ofNat 39]
def dquoteStr : List Char := ['"']
def pyTrueStr : List Char := "True".toList
def jsonTrueStr : List Char := "true".toList
def pyFalseStr : List Char := "False".toList
def jsonFalseStr : List Char := "false".toList
def pyNoneStr : List Char := "None".toList
def jsonNullStr : List Char := "null".toList

/-- The Python-to-JSON line fixups of processAmazonData (lines 374-377): single quotes
(character 39) to double quotes, then the True/False/None literals. -/
def pythonToJson (line : List Char) : List Char :=
  replaceAll pyNoneStr jsonNullStr
    (replaceAll pyFalseStr jsonFalseStr
      (replaceAll pyTrueStr jsonTrueStr
        (replaceAll squoteStr dquoteStr line)))

/-- The validation gate of processAmazonData line 384. -/
def validProduct (p : GoProduct) : Bool := p.asin != [] && p.title != []

/-- The producer loop of processAmazonData (lines 367-406) with the constant
`SampleSize = 0` (process every line): skip blank lines, apply the Python fixups, let
the external JSON decoder (the `unmarshal` oracle) parse, and keep the record -
incrementing `processedCount` - only when identifier and title are non-empty. Returns
the records appended to batches, in input order. -/
def producerLoop (unmarshal : List Char → Option GoProduct) : List (List Char) → List GoProduct
  | [] => []
  | line :: rest =>
    if line.isEmpty then producerLoop unmarshal rest
    else
      match unmarshal (pythonToJson line) with
      | none => producerLoop unmarshal rest
      | some p =>
        if validProduct p then p :: producerLoop unmarshal rest
        else producerLoop unmarshal rest

/-- The final value of the atomic `processedCount` counter: it is incremented exactly
once per record the producer keeps (line 386), and nowhere else. -/
def ingestedCount (unmarshal : List Char → Option GoProduct) (lines : List (List Char)) : ℕ :=
  (producerLoop unmarshal lines).length

def BatchSize : ℕ := 5000

/-- How the producer cuts the kept records into submitted batches: a full batch every
`BatchSize` records (lines 388-391), then the non-empty remainder (lines 409-411). -/
def chunkBatches (l : List GoProduct) : List (List GoProduct) :=
  if h : l.isEmpty then [] else l.take BatchSize :: chunkBatches (l.drop BatchSize)
termination_by l.length
decreasing_by
  have h1 : l ≠ [] := by simpa [List.isEmpty_iff] using h
  have h2 : 0 < l.length := List.length_pos.mpr h1
  have h3 : 0 < BatchSize := by norm_num [BatchSize]
  simp [List.length_drop]
  omega

/-- The records the external JSON decoder accepts from non-blank lines, before the
identifier/title validation (the reference point for claim C9). -/
def parsedProducts (unmarshal : List Char → Option GoProduct)
    (lines : List (List Char)) : List GoProduct :=
  (lines.filter (fun l => !l.isEmpty)).filterMap (fun l => unmarshal (pythonToJson l))

/-- Every row persisted across the whole run: each submitted batch goes through
insertBatch (by some worker; which worker holds a batch does not enter the data), and
the per-batch results are gathered. -/
def writtenRows (unmarshal : List Char → Option GoProduct) (execOk : InsertedRow → Bool)
    (lines : List (List Char)) : List InsertedRow :=
  ((chunkBatches (producerLoop unmarshal lines)).map (fun b => (insertBatch execOk b).rows)).flatten

/-! ## Concrete inputs for witnesses and counterexamples -/

def samsungTitleStr : List Char := "Samsung Galaxy Phone".toList
def appleTitleStr : List Char := "Apple Watch".toList
def samsungRow : Row := ⟨some samsungTitleStr, none, none⟩
def appleRow : Row := ⟨some appleTitleStr, none, none⟩
def samsuStr : List Char := "samsu".toList
def aStr : List Char := "a".toList
def bStr : List Char := "b".toList
def rowA : Row := ⟨some aStr, some aStr, some aStr⟩
def rowB : Row := ⟨some bStr, none, none⟩
def appleStr : List Char := "apple".toList
def boomStr : List Char := "boom".toList

def demoAsinA : List Char := "A1".toList
def demoAsinB : List Char := "B2".toList
def demoAsinC : List Char := "C3".toList
def demoTitleStr : List Char := "Widget".toList
def demoProdA : GoProduct := ⟨demoAsinA, demoTitleStr, [], [], [], [], [], []⟩
def demoProdB : GoProduct := ⟨demoAsinB, demoTitleStr, [], [], [], [], [], []⟩
def demoProdC : GoProduct := ⟨demoAsinC, demoTitleStr, [], [], [], [], [], []⟩

/-- A store oracle that rejects exactly the row with the second demo identifier. -/
def rejectSecondAsin (r : InsertedRow) : Bool := r.asin != demoAsinB

def demoLines : List (List Char) := [aStr, bStr]

/-- A decoder oracle for the two demo lines (both are fixed points of the Python
fixups). -/
def demoUnmarshal (l : List Char) : Option GoProduct :=
  if l = aStr then some demoProdA else if l = bStr then some demoProdB else none

def c4Batch : List GoProduct := [demoProdA, demoProdB, demoProdC]

/-- A store oracle that accepts every row (the no-failure scenario). -/
def acceptAll (_ : InsertedRow) : Bool := true

/-! ## Analysis of the DCG loop

The facts below are the mathematical core behind claims C2 and C3: the summands of the
DCG loop are nonnegative for nonnegative scores, the gain `2^s - 1` is strictly
monotone, the discount `1 / log2(i + 2)` is positive and strictly decreasing, and
therefore the loop value is maximal exactly on descending score lists. -/

theorem gain_le_gain {a b : ℚ} (h : a ≤ b) : gain a ≤ gain b := by
  have : (2 : ℝ) ^ (a : ℝ) ≤ (2 : ℝ) ^ (b : ℝ) := by
    rw [Real.rpow_le_rpow_left_iff (by norm_num)]
    exact_mod_cast h
  simpa [gain] using this

theorem gain_lt_gain {a b : ℚ} (h : a < b) : gain a < gain b := by
  have : (2 : ℝ) ^ (a : ℝ) < (2 : ℝ) ^ (b : ℝ) := by
    rw [Real.rpow_lt_rpow_left_iff (by norm_num)]
    exact_mod_cast h
  simpa [gain] using this

theorem gain_nonneg {s : ℚ} (h : 0 ≤ s) : 0 ≤ gain s := by
  have h0 : gain 0 = 0 := by simp [gain]
  have := gain_le_gain h
  simpa [h0] using this

theorem gain_pos {s : ℚ} (h : 0 < s) : 0 < gain s := by
  have h0 : gain 0 = 0 := by simp [gain]
  have := gain_lt_gain h
  simpa [h0] using this

theorem dcgDenom_pos (k : ℕ) : 0 < dcgDenom k := by
  have hk : (0 : ℝ) ≤ (k : ℝ) := Nat.cast_nonneg k
  exact Real.logb_pos (by norm_num) (by linarith)

theorem dcgDenom_lt (k : ℕ) : dcgDenom k < dcgDenom (k + 1) := by
  have h1 : (0 : ℝ) < (k : ℝ) + 2 := by positivity
  have h2 : ((k : ℝ)) + 2 < ((k : ℝ) + 1) + 2 := by linarith
  have := Real.logb_lt_logb (b := 2) (by norm_num) h1 h2
  simpa [dcgDenom] using this

theorem swap_heads_le {x y : ℝ} (k : ℕ) (hxy : x ≤ y) :
    x / dcgDenom k + y / dcgDenom (k + 1) ≤ y / dcgDenom k + x / dcgDenom (k + 1) := by
  have hk := dcgDenom_pos k
  have hk1 := dcgDenom_pos (k + 1)
  have hlt := dcgDenom_lt k
  have hinv : (dcgDenom (k + 1))⁻¹ ≤ (dcgDenom k)⁻¹ := inv_anti₀ hk hlt.le
  have hmul : 0 ≤ (y - x) * ((dcgDenom k)⁻¹ - (dcgDenom (k + 1))⁻¹) :=
    mul_nonneg (by linarith) (by linarith)
  rw [div_eq_mul_inv, div_eq_mul_inv, div_eq_mul_inv, div_eq_mul_inv]
  nlinarith [hmul]

theorem swap_heads_lt {x y : ℝ} (k : ℕ) (hxy : x < y) :
    x / dcgDenom k + y / dcgDenom (k + 1) < y / dcgDenom k + x / dcgDenom (k + 1) := by
  have hk := dcgDenom_pos k
  have hk1 := dcgDenom_pos (k + 1)
  have hlt := dcgDenom_lt k
  have hinv : (dcgDenom (k + 1))⁻¹ < (dcgDenom k)⁻¹ := inv_strictAnti₀ hk hlt
  have hmul : 0 < (y - x) * ((dcgDenom k)⁻¹ - (dcgDenom (k + 1))⁻¹) :=
    mul_pos (by linarith) (by linarith)
  rw [div_eq_mul_inv, div_eq_mul_inv, div_eq_mul_inv, div_eq_mul_inv]
  nlinarith [hmul]

theorem dcgFrom_cons_le_orderedInsert (a : ℚ) (l : List ℚ) :
    ∀ k, dcgFrom k (a :: l) ≤ dcgFrom k (List.orderedInsert (· ≥ ·) a l) := by
  induction l with
  | nil => intro k; simp [List.orderedInsert, le_refl]
  | cons b t ih =>
    intro k
    by_cases hab : a ≥ b
    · simp [List.orderedInsert, hab, le_refl]
    · push_neg at hab
      have step1 : dcgFrom (k + 1) (a :: t) ≤ dcgFrom (k + 1) (List.orderedInsert (· ≥ ·) a t) :=
        ih (k + 1)
      have hswap : gain a / dcgDenom k + gain b / dcgDenom (k + 1) ≤
          gain b / dcgDenom k + gain a / dcgDenom (k + 1) :=
        swap_heads_le k (gain_le_gain hab.le)
      have lhs_eq : dcgFrom k (a :: b :: t) =
          gain a / dcgDenom k + gain b / dcgDenom (k + 1) + dcgFrom (k + 2) t := by
        simp [dcgFrom]; ring
      have mid_eq : dcgFrom (k + 1) (a :: t) =
          gain a / dcgDenom (k + 1) + dcgFrom (k + 2) t := by
        simp [dcgFrom]
      have rhs_eq : dcgFrom k (List.orderedInsert (· ≥ ·) a (b :: t)) =
          gain b / dcgDenom k + dcgFrom (k + 1) (List.orderedInsert (· ≥ ·) a t) := by
        simp [List.orderedInsert, hab.not_le, dcgFrom]
      rw [lhs_eq, rhs_eq]
      have := mid_eq ▸ step1
      linarith

theorem dcgFrom_le_sortDesc (l : List ℚ) : ∀ k, dcgFrom k l ≤ dcgFrom k (sortDesc l) := by
  induction l with
  | nil => intro k; simp [sortDesc, List.insertionSort, le_refl]
  | cons a t ih =>
    intro k
    have h1 : dcgFrom k (a :: t) ≤ dcgFrom k (a :: sortDesc t) := by
      have := ih (k + 1)
      simp [dcgFrom]
      linarith
    have h2 : dcgFrom k (a :: sortDesc t) ≤
        dcgFrom k (List.orderedInsert (· ≥ ·) a (sortDesc t)) :=
      dcgFrom_cons_le_orderedInsert a (sortDesc t) k
    have h3 : sortDesc (a :: t) = List.orderedInsert (· ≥ ·) a (sortDesc t) := by
      simp [sortDesc, List.insertionSort]
    rw [h3]
    exact h1.trans h2

theorem sortDesc_sorted (l : List ℚ) : (sortDesc l).Sorted (· ≥ ·) :=
  List.sorted_insertionSort _ l

theorem sortDesc_perm (l : List ℚ) : List.Perm (sortDesc l) l :=
  List.perm_insertionSort _ l

theorem sortDesc_eq_of_sorted {l : List ℚ} (h : l.Sorted (· ≥ ·)) : sortDesc l = l :=
  List.Sorted.insertionSort_eq h

theorem sortDesc_congr_perm {l l' : List ℚ} (h : List.Perm l l') : sortDesc l = sortDesc l' :=
  List.eq_of_perm_of_sorted ((sortDesc_perm l).trans (h.trans (sortDesc_perm l').symm))
    (sortDesc_sorted l) (sortDesc_sorted l')

theorem dcgFrom_swap_lt {a b : ℚ} (h : a < b) (t : List ℚ) (k : ℕ) :
    dcgFrom k (a :: b :: t) < dcgFrom k (b :: a :: t) := by
  have hswap := swap_heads_lt k (gain_lt_gain h)
  simp [dcgFrom]
  linarith

theorem dcgFrom_lt_sortDesc : ∀ {l : List ℚ}, ¬ l.Sorted (· ≥ ·) →
    ∀ k, dcgFrom k l < dcgFrom k (sortDesc l) := by
  intro l
  induction l with
  | nil => intro h; exact absurd List.sorted_nil h
  | cons a t ih =>
    intro h k
    by_cases ht : t.Sorted (· ≥ ·)
    · have hnall : ¬ (∀ b ∈ t, a ≥ b) := by
        intro hall
        exact h (List.sorted_cons.2 ⟨hall, ht⟩)
      push_neg at hnall
      obtain ⟨x, hxt, hax⟩ := hnall
      match t, ht, hxt with
      | b :: t', ht, hxt =>
        have hab : a < b := by
          rcases List.mem_cons.1 hxt with hx | hx
          · exact hx ▸ hax
          · have hbx : b ≥ x := (List.sorted_cons.1 ht).1 x hx
            exact lt_of_lt_of_le hax hbx
        have h1 : dcgFrom k (a :: b :: t') < dcgFrom k (b :: a :: t') :=
          dcgFrom_swap_lt hab t' k
        have h2 : dcgFrom k (b :: a :: t') ≤ dcgFrom k (sortDesc (b :: a :: t')) :=
          dcgFrom_le_sortDesc _ k
        have h3 : sortDesc (b :: a :: t') = sortDesc (a :: b :: t') :=
          sortDesc_congr_perm (List.Perm.swap _ _ _)
        rw [h3] at h2
        exact lt_of_lt_of_le h1 h2
    · have step : dcgFrom (k + 1) t < dcgFrom (k + 1) (sortDesc t) := ih ht (k + 1)
      have h1 : dcgFrom k (a :: t) < dcgFrom k (a :: sortDesc t) := by
        simp [dcgFrom]; linarith
      have h2 : dcgFrom k (a :: sortDesc t) ≤
          dcgFrom k (List.orderedInsert (· ≥ ·) a (sortDesc t)) :=
        dcgFrom_cons_le_orderedInsert a (sortDesc t) k
      have h3 : sortDesc (a :: t) = List.orderedInsert (· ≥ ·) a (sortDesc t) := by
        simp [sortDesc, List.insertionSort]
      rw [h3]
      exact lt_of_lt_of_le h1 h2

theorem dcgFrom_nonneg : ∀ {l : List ℚ}, (∀ s ∈ l, 0 ≤ s) → ∀ k, 0 ≤ dcgFrom k l := by
  intro l
  induction l with
  | nil => intro _ k; simp [dcgFrom]
  | cons a t ih =>
    intro h k
    have ha : 0 ≤ gain a / dcgDenom k :=
      div_nonneg (gain_nonneg (h a (List.mem_cons_self a t))) (dcgDenom_pos k).le
    have ht : 0 ≤ dcgFrom (k + 1) t := ih (fun s hs => h s (List.mem_cons_of_mem a hs)) (k + 1)
    simp [dcgFrom]
    linarith

theorem dcgFrom_pos : ∀ {l : List ℚ}, (∀ s ∈ l, 0 ≤ s) → (∃ s ∈ l, 0 < s) →
    ∀ k, 0 < dcgFrom k l := by
  intro l
  induction l with
  | nil => intro _ hex k; simp at hex
  | cons a t ih =>
    intro h hex k
    have ha : 0 ≤ gain a / dcgDenom k :=
      div_nonneg (gain_nonneg (h a (List.mem_cons_self a t))) (dcgDenom_pos k).le
    have ht : 0 ≤ dcgFrom (k + 1) t :=
      dcgFrom_nonneg (fun s hs => h s (List.mem_cons_of_mem a hs)) (k + 1)
    obtain ⟨x, hx, hxpos⟩ := hex
    rcases List.mem_cons.1 hx with hxa | hxt
    · have : 0 < gain a / dcgDenom k := div_pos (gain_pos (hxa ▸ hxpos)) (dcgDenom_pos k)
      simp [dcgFrom]
      linarith
    · have : 0 < dcgFrom (k + 1) t :=
        ih (fun s hs => h s (List.mem_cons_of_mem a hs)) ⟨x, hxt, hxpos⟩ (k + 1)
      simp [dcgFrom]
      linarith

theorem ndcgRelevance_nonneg (terms : List (List Char)) (r : Row) :
    0 ≤ ndcgRelevance terms r := by
  unfold ndcgRelevance
  positivity

theorem ndcgScores_nonneg (R : List Row) (q : List Char) :
    ∀ s ∈ ndcgScores R q, 0 ≤ s := by
  intro s hs
  obtain ⟨r, _, rfl⟩ := List.mem_map.1 hs
  exact ndcgRelevance_nonneg _ r

theorem ndcgScores_nil_of_empty {R : List Row} (h : R.isEmpty) (q : List Char) :
    ndcgScores R q = [] := by
  rw [List.isEmpty_iff] at h
  subst h
  rfl

theorem ndcgScores_ne_nil {R : List Row} {q : List Char} (h : ndcgScores R q ≠ []) :
    R.isEmpty = false := by
  cases hR : R.isEmpty
  · rfl
  · exact absurd (ndcgScores_nil_of_empty hR q) h

theorem calculateNDCG_nonneg (R : List Row) (q : List Char) : 0 ≤ calculateNDCG R q := by
  have hnn : ∀ s ∈ ndcgScores R q, 0 ≤ s := ndcgScores_nonneg R q
  have hnn' : ∀ s ∈ sortDesc (ndcgScores R q), 0 ≤ s := fun s hs =>
    hnn s ((sortDesc_perm (ndcgScores R q)).mem_iff.1 hs)
  have hdcg0 : 0 ≤ ndcgDCG (ndcgScores R q) := dcgFrom_nonneg hnn 0
  have hidcg0 : 0 ≤ ndcgIDCG (ndcgScores R q) := dcgFrom_nonneg hnn' 0
  by_cases hemp : R.isEmpty
  · simp [calculateNDCG, hemp]
  · by_cases hz : ndcgIDCG (ndcgScores R q) = 0
    · simp [calculateNDCG, hemp, hz]
    · have hdiv0 : 0 ≤ ndcgDCG (ndcgScores R q) / ndcgIDCG (ndcgScores R q) :=
        div_nonneg hdcg0 hidcg0
      simp only [calculateNDCG, hemp, Bool.false_eq_true, if_false, hz, if_neg hz]
      nlinarith [hdiv0]

theorem calculateNDCG_le_100 (R : List Row) (q : List Char) : calculateNDCG R q ≤ 100 := by
  have hnn : ∀ s ∈ ndcgScores R q, 0 ≤ s := ndcgScores_nonneg R q
  have hnn' : ∀ s ∈ sortDesc (ndcgScores R q), 0 ≤ s := fun s hs =>
    hnn s ((sortDesc_perm (ndcgScores R q)).mem_iff.1 hs)
  have hidcg0 : 0 ≤ ndcgIDCG (ndcgScores R q) := dcgFrom_nonneg hnn' 0
  have hle : ndcgDCG (ndcgScores R q) ≤ ndcgIDCG (ndcgScores R q) :=
    dcgFrom_le_sortDesc (ndcgScores R q) 0
  by_cases hemp : R.isEmpty
  · simp [calculateNDCG, hemp]
  · by_cases hz : ndcgIDCG (ndcgScores R q) = 0
    · simp [calculateNDCG, hemp, hz]
    · have hpos : 0 < ndcgIDCG (ndcgScores R q) := lt_of_le_of_ne hidcg0 (Ne.symm hz)
      have hdiv1 : ndcgDCG (ndcgScores R q) / ndcgIDCG (ndcgScores R q) ≤ 1 :=
        (div_le_one hpos).2 hle
      simp only [calculateNDCG, hemp, Bool.false_eq_true, if_false, hz, if_neg hz]
      nlinarith [hdiv1]

theorem calculateNDCG_of_idcg_eq_zero {R : List Row} {q : List Char}
    (hz : ndcgIDCG (ndcgScores R q) = 0) : calculateNDCG R q = 0 := by
  by_cases hemp : R.isEmpty <;> simp [calculateNDCG, hemp, hz]

theorem calculateNDCG_eq_100_of_sorted {R : List Row} {q : List Char}
    (hsorted : (ndcgScores R q).Sorted (· ≥ ·))
    (hpos : 0 < ndcgIDCG (ndcgScores R q)) : calculateNDCG R q = 100 := by
  have hsne : ndcgScores R q ≠ [] := by
    intro hnil
    rw [hnil] at hpos
    simp [ndcgIDCG, sortDesc, List.insertionSort, dcgFrom] at hpos
  have hemp : R.isEmpty = false := ndcgScores_ne_nil hsne
  have heq : ndcgIDCG (ndcgScores R q) = ndcgDCG (ndcgScores R q) := by
    unfold ndcgIDCG ndcgDCG
    rw [sortDesc_eq_of_sorted hsorted]
  have hz : ndcgIDCG (ndcgScores R q) ≠ 0 := ne_of_gt hpos
  have hden : ndcgDCG (ndcgScores R q) ≠ 0 := heq ▸ hz
  simp only [calculateNDCG, hemp, Bool.false_eq_true, if_false]
  rw [if_neg hz, heq, div_self hden]
  norm_num

theorem calculateNDCG_lt_100_of_not_sorted {R : List Row} {q : List Char}
    (hworse : ¬ (ndcgScores R q).Sorted (· ≥ ·)) : calculateNDCG R q < 100 := by
  have hnn : ∀ s ∈ ndcgScores R q, 0 ≤ s := ndcgScores_nonneg R q
  have hlt : ndcgDCG (ndcgScores R q) < ndcgIDCG (ndcgScores R q) :=
    dcgFrom_lt_sortDesc hworse 0
  have hd0 : 0 ≤ ndcgDCG (ndcgScores R q) := dcgFrom_nonneg hnn 0
  have hpos : 0 < ndcgIDCG (ndcgScores R q) := lt_of_le_of_lt hd0 hlt
  have hz : ndcgIDCG (ndcgScores R q) ≠ 0 := ne_of_gt hpos
  have hsne : ndcgScores R q ≠ [] := by
    intro hnil
    rw [hnil] at hworse
    exact hworse List.sorted_nil
  have hemp : R.isEmpty = false := ndcgScores_ne_nil hsne
  have hdivlt : ndcgDCG (ndcgScores R q) / ndcgIDCG (ndcgScores R q) < 1 :=
    (div_lt_one hpos).2 hlt
  simp only [calculateNDCG, hemp, Bool.false_eq_true, if_false, hz, if_neg hz]
  nlinarith [hdivlt]

/-! ## Claim C2 -/

/-- C2: for every result set R and query text q, calculateNDCG(R, q) lies in [0, 100];
it returns exactly 100 when the graded relevance values of the first min(|R|, 10)
results are already in descending (ideal) order and the ideal DCG is positive; and when
the ideal DCG is 0 it returns 0 instead of dividing by zero. -/
theorem c2_ndcg_range_ideal_guard (R : List Row) (q : List Char) :
    (0 ≤ calculateNDCG R q ∧ calculateNDCG R q ≤ 100) ∧
    ((ndcgScores R q).Sorted (· ≥ ·) → 0 < ndcgIDCG (ndcgScores R q) →
      calculateNDCG R q = 100) ∧
    (ndcgIDCG (ndcgScores R q) = 0 → calculateNDCG R q = 0) :=
  ⟨⟨calculateNDCG_nonneg R q, calculateNDCG_le_100 R q⟩,
    fun hs hp => calculateNDCG_eq_100_of_sorted hs hp,
    fun hz => calculateNDCG_of_idcg_eq_zero hz⟩

/-- Witness for C2: a two-row result set whose graded relevances [1, 0] are already
descending with positive ideal DCG scores exactly 100. -/
theorem c2_ndcg_range_ideal_guard_witness :
    (ndcgScores [rowA, rowB] aStr).Sorted (· ≥ ·) ∧
    0 < ndcgIDCG (ndcgScores [rowA, rowB] aStr) ∧
    calculateNDCG [rowA, rowB] aStr = 100 := by
  have hsorted : (ndcgScores [rowA, rowB] aStr).Sorted (· ≥ ·) := by
    with_unfolding_all decide
  have hpos : 0 < ndcgIDCG (ndcgScores [rowA, rowB] aStr) :=
    dcgFrom_pos (fun s hs => by revert s hs; with_unfolding_all decide)
      (by with_unfolding_all decide) 0
  exact ⟨hsorted, hpos, (c2_ndcg_range_ideal_guard [rowA, rowB] aStr).2.1 hsorted hpos⟩

/-! ## Claim C3 -/

/-- C3: when the top-10 graded relevance sequence of R is not in the ideal descending
order (which requires two results of differing relevance), R scores strictly less than
any reordering Rideal whose top-10 relevance sequence is the ideal descending one; the
relevance multiset and hence the ideal DCG are unchanged, while the DCG term is
order-sensitive. -/
theorem c3_ndcg_order_sensitive (R Rideal : List Row) (q : List Char)
    (hworse : ¬ (ndcgScores R q).Sorted (· ≥ ·))
    (hideal : ndcgScores Rideal q = sortDesc (ndcgScores R q)) :
    calculateNDCG R q < calculateNDCG Rideal q := by
  have hnn := ndcgScores_nonneg R q
  have hlt : ndcgDCG (ndcgScores R q) < ndcgIDCG (ndcgScores R q) :=
    dcgFrom_lt_sortDesc hworse 0
  have hd0 : 0 ≤ ndcgDCG (ndcgScores R q) := dcgFrom_nonneg hnn 0
  have hpos : 0 < ndcgIDCG (ndcgScores R q) := lt_of_le_of_lt hd0 hlt
  have hsorted' : (ndcgScores Rideal q).Sorted (· ≥ ·) := by
    rw [hideal]
    exact sortDesc_sorted _
  have hidcg_eq : ndcgIDCG (ndcgScores Rideal q) = ndcgIDCG (ndcgScores R q) := by
    unfold ndcgIDCG
    rw [hideal, sortDesc_eq_of_sorted (sortDesc_sorted _)]
  have hpos' : 0 < ndcgIDCG (ndcgScores Rideal q) := hidcg_eq ▸ hpos
  have hrhs : calculateNDCG Rideal q = 100 := calculateNDCG_eq_100_of_sorted hsorted' hpos'
  have hlhs : calculateNDCG R q < 100 := calculateNDCG_lt_100_of_not_sorted hworse
  rw [hrhs]
  exact hlhs

/-- Witness for C3: the rows of the C2 witness in the worse order [0, 1] against the
ideal order [1, 0]. -/
theorem c3_ndcg_order_sensitive_witness :
    (¬ (ndcgScores [rowB, rowA] aStr).Sorted (· ≥ ·)) ∧
    ndcgScores [rowA, rowB] aStr = sortDesc (ndcgScores [rowB, rowA] aStr) ∧
    calculateNDCG [rowB, rowA] aStr < calculateNDCG [rowA, rowB] aStr := by
  have hworse : ¬ (ndcgScores [rowB, rowA] aStr).Sorted (· ≥ ·) := by
    with_unfolding_all decide
  have hideal : ndcgScores [rowA, rowB] aStr = sortDesc (ndcgScores [rowB, rowA] aStr) := by
    with_unfolding_all decide
  exact ⟨hworse, hideal, c3_ndcg_order_sensitive [rowB, rowA] [rowA, rowB] aStr hworse hideal⟩

/-! ## Claim C5 -/

/-- C5: for every query text, both scoring functions return 0 on an empty result set and
on a JS null result set. -/
theorem c5_empty_result_sets_score_zero (q : List Char) :
    calculateRelevanceScore [] q = 0 ∧ calculateNDCG [] q = 0 ∧
    calculateRelevanceScoreNullable none q = 0 ∧ calculateNDCGNullable none q = 0 := by
  refine ⟨by simp [calculateRelevanceScore], by simp [calculateNDCG], rfl, ?_⟩
  simp [calculateNDCGNullable, calculateNDCG]

/-! ## Claim C1 -/

/-- C1 counterexample: against the result set [Samsung Galaxy Phone, Apple Watch], the
query samsu does NOT score 0 - samsu occurs as a substring of samsung, so the premise of
the claim (no substring match under literal matching) is false and the scorer returns a
nonzero aggregate. -/
theorem c1_counterexample_samsu_matches :
    jsIncludes samsuStr (rowText samsungRow) = true ∧
    calculateRelevanceScore [samsungRow, appleRow] samsuStr ≠ 0 := by
  constructor
  · with_unfolding_all decide
  · with_unfolding_all decide

/-- C1 amended: for the query samsu against [Samsung Galaxy Phone, Apple Watch] the
term-overlap score is 40, not 0. The term samsu is a substring of the first title but
not a whole-word match, so the first result earns the substring point plus the title
bonus, (1 + 3) * coverage 1 * weight 1 = 4 of the maximum 2 * 1 * 5 = 10, normalized to
40; the Apple Watch result contributes 0. The scorer performs no fuzzy correction, but
literal substring matching already hits the prefix samsu of samsung. -/
theorem c1_amended_substring_scores_forty :
    calculateRelevanceScore [samsungRow, appleRow] samsuStr = 40 ∧
    resultScoreAt (queryTermsOf samsuStr) 0 samsungRow = 4 ∧
    resultScoreAt (queryTermsOf samsuStr) 1 appleRow = 0 ∧
    jsWordBoundaryTest samsuStr (rowText samsungRow) = false := by
  refine ⟨?_, ?_, ?_, ?_⟩ <;> with_unfolding_all decide

/-! ## Claim C6 -/

/-- C6 counterexample: the term apple matches the text apple both as a substring and as
a whole word, yet the server.js scorer awards it 2 points rather than the claimed
1 + 2 = 3 (the whole-word award replaces the substring point), and the benchmark-script
scorer awards 5 for the same input, so the variants do not share one scheme either. -/
theorem c6_counterexample_whole_word_two_points :
    jsIncludes appleStr appleStr = true ∧
    jsWordBoundaryTest appleStr appleStr = true ∧
    matchScoreOf [appleStr] appleStr = 2 ∧
    benchMatchScoreOf [appleStr] appleStr = 5 ∧
    matchScoreOf [appleStr] appleStr ≠ 1 + 2 ∧
    matchScoreOf [appleStr] appleStr ≠ benchMatchScoreOf [appleStr] appleStr := by
  refine ⟨?_, ?_, ?_, ?_, ?_, ?_⟩ <;> decide

theorem jsIncludes_of_prefixOf_drop {term : List Char} :
    ∀ (text : List Char) (i : ℕ), term.isPrefixOf (text.drop i) = true →
      jsIncludes term text = true := by
  intro text
  induction text with
  | nil =>
    intro i h
    simp at h
    simp [jsIncludes, h]
  | cons c rest ih =>
    intro i h
    match i with
    | 0 =>
      simp only [List.drop_zero] at h
      simp [jsIncludes, h]
    | j + 1 =>
      simp only [List.drop_succ_cons] at h
      simp [jsIncludes, ih j h]

theorem jsIncludes_of_wordBoundary {term text : List Char}
    (h : jsWordBoundaryTest term text = true) : jsIncludes term text = true := by
  unfold jsWordBoundaryTest at h
  rw [List.any_eq_true] at h
  obtain ⟨i, _, hi⟩ := h
  have hocc : occursAt term text i = true := by
    rw [Bool.and_eq_true, Bool.and_eq_true] at hi
    exact hi.1.1
  unfold occursAt at hocc
  have htake : (text.drop i).take term.length = term := by
    rw [beq_iff_eq] at hocc
    exact hocc
  have hpre : term.isPrefixOf (text.drop i) = true := by
    rw [List.isPrefixOf_iff_prefix]
    exact htake ▸ List.take_prefix term.length (text.drop i)
  exact jsIncludes_of_prefixOf_drop text i hpre

/-- C6 amended: a whole-word match is in particular a substring match, and per query
term the server.js scorer awards 2 points for a whole-word match and 1 for a
substring-only match (the bonus replaces the substring point rather than adding to it),
while the benchmark-script scorer awards 2 for a substring match plus another 3 for a
whole-word match, 5 in total; the two scorer variants thus use different schemes. -/
theorem c6_amended_point_schemes (term text : List Char) :
    (jsWordBoundaryTest term text = true → jsIncludes term text = true) ∧
    (jsIncludes term text = true → jsWordBoundaryTest term text = true →
      matchScoreOf [term] text = 2 ∧ benchMatchScoreOf [term] text = 5) ∧
    (jsIncludes term text = true → jsWordBoundaryTest term text = false →
      matchScoreOf [term] text = 1 ∧ benchMatchScoreOf [term] text = 2) ∧
    (jsIncludes term text = false →
      matchScoreOf [term] text = 0 ∧ benchMatchScoreOf [term] text = 0) := by
  refine ⟨fun hb => jsIncludes_of_wordBoundary hb, ?_, ?_, ?_⟩
  · intro hinc hb
    constructor <;> simp [matchScoreOf, termPoints, benchMatchScoreOf, benchTermPoints, hinc, hb]
  · intro hinc hb
    constructor <;> simp [matchScoreOf, termPoints, benchMatchScoreOf, benchTermPoints, hinc, hb]
  · intro hinc
    constructor <;> simp [matchScoreOf, termPoints, benchMatchScoreOf, benchTermPoints, hinc]

/-- Witness for the amended C6 at the whole-word input apple against apple. -/
theorem c6_amended_point_schemes_witness :
    jsIncludes appleStr appleStr = true ∧ jsWordBoundaryTest appleStr appleStr = true ∧
    matchScoreOf [appleStr] appleStr = 2 ∧ benchMatchScoreOf [appleStr] appleStr = 5 :=
  ⟨by decide, by decide,
    ((c6_amended_point_schemes appleStr appleStr).2.1 (by decide) (by decide)).1,
    ((c6_amended_point_schemes appleStr appleStr).2.1 (by decide) (by decide)).2⟩

/-! ## Claim C10 -/

/-- C10: a searchType outside the five labels handled by server.js - including the spec
name fuzzy - does not make either dispatcher fail: runVanillaSearch falls through to the
default full-text branch and runParadeSearch to the default multi-field phrase query,
and each returns a normal result. -/
theorem c10_unknown_search_type_defaults (query searchType : List Char)
    (rows : List Row) (d : ℕ) (h : searchType ∉ serverSearchTypes) :
    runVanillaSearch query searchType (Except.ok rows) d =
      Except.ok ⟨rows, d, rows.length, VanillaBranch.defaultB, pgEngineStr⟩ ∧
    runParadeSearch query searchType (Except.ok rows) d =
      Except.ok ⟨rows, d, rows.length, ParadeBranch.defaultP (paradeDefaultQuery query),
        paradeEngineStr⟩ := by
  simp only [serverSearchTypes, List.mem_cons, List.not_mem_nil, or_false, not_or] at h
  obtain ⟨h1, h2, h3, h4, h5⟩ := h
  constructor
  · simp [runVanillaSearch, vanillaBranchOf, h1, h2, h3, h4, h5]
  · simp [runParadeSearch, paradeBranchOf, h1, h2, h3, h4, h5]

/-- Witness for C10 at the spec search type fuzzy. -/
theorem c10_unknown_search_type_defaults_witness :
    fuzzyStr ∉ serverSearchTypes ∧
    runVanillaSearch samsuStr fuzzyStr (Except.ok [samsungRow]) 3 =
      Except.ok ⟨[samsungRow], 3, 1, VanillaBranch.defaultB, pgEngineStr⟩ ∧
    runParadeSearch samsuStr fuzzyStr (Except.ok [samsungRow]) 3 =
      Except.ok ⟨[samsungRow], 3, 1, ParadeBranch.defaultP (paradeDefaultQuery samsuStr),
        paradeEngineStr⟩ := by
  have h : fuzzyStr ∉ serverSearchTypes := by decide
  have hc := c10_unknown_search_type_defaults samsuStr fuzzyStr [samsungRow] 3 h
  exact ⟨h, hc.1, hc.2⟩

/-! ## Claim C7 -/

theorem vqBranchOf_isSome {searchType : List Char} (query : List Char)
    (h : searchType ∈ benchSearchTypes) : (vqBranchOf query searchType).isSome := by
  simp only [benchSearchTypes, List.mem_cons, List.not_mem_nil, or_false] at h
  rcases h with rfl | rfl | rfl | rfl | rfl <;>
    simp [vqBranchOf, fulltextStr, booleanStr, fieldStr, fuzzyStr, exactStr]

theorem benchLoopAux_isSome (vres pres : List Char → Option QueryResult) :
    ∀ (qs : List (List Char)) va pa, (∀ q ∈ qs, (vres q).isSome ∧ (pres q).isSome) →
      (benchLoopAux vres pres qs va pa).isSome := by
  intro qs
  induction qs with
  | nil => intro va pa _; simp [benchLoopAux]
  | cons q rest ih =>
    intro va pa h
    obtain ⟨v, hv⟩ := Option.isSome_iff_exists.mp (h q (List.mem_cons_self q rest)).1
    obtain ⟨p, hp⟩ := Option.isSome_iff_exists.mp (h q (List.mem_cons_self q rest)).2
    simp only [benchLoopAux, hv, hp]
    exact ih _ _ (fun x hx => h x (List.mem_cons_of_mem q hx))

/-- C7: for every query and each handled search type, an engine error is returned by the
dispatcher as a duration-0, count-0, empty-result, error-carrying QueryResult rather
than raising; the benchmark read loop is total whenever the dispatchers return (it
consumes every query and only excludes errored cells from the aggregates); and the
/api/benchmark handler answers normally when one engine raises, substituting the zeroed
error object for that side while still processing the other engine. -/
theorem c7_query_errors_contained :
    (∀ (query searchType e : List Char) (d : ℕ), searchType ∈ benchSearchTypes →
      runVanillaQuery query searchType (Except.error e) d = some ⟨0, 0, [], some e⟩) ∧
    (∀ (vres pres : List Char → Option QueryResult) (qs : List (List Char)),
      (∀ q ∈ qs, (vres q).isSome ∧ (pres q).isSome) →
      (benchLoop vres pres qs).isSome) ∧
    (∀ (query searchType e : List Char) (rows : List Row) (vMs pMs : ℕ), query ≠ [] →
      ∃ payload,
        benchmarkHandler query searchType (Except.error e) (Except.ok rows) vMs pMs =
          HandlerResult.ok payload ∧
        payload.vanilla.results = [] ∧ payload.vanilla.duration = 0 ∧
        payload.vanilla.count = 0 ∧ payload.vanilla.error = some e ∧
        payload.parade.results = rows ∧ payload.parade.error = none) := by
  refine ⟨?_, ?_, ?_⟩
  · intro query searchType e d h
    obtain ⟨b, hb⟩ := Option.isSome_iff_exists.mp (vqBranchOf_isSome query h)
    simp [runVanillaQuery, hb]
  · intro vres pres qs h
    exact benchLoopAux_isSome vres pres qs ⟨0, 0, 0⟩ ⟨0, 0, 0⟩ h
  · intro query searchType e rows vMs pMs hq
    have hq' : query.isEmpty = false := by
      cases hqe : query.isEmpty
      · rfl
      · exact absurd (List.isEmpty_iff.mp hqe) hq
    have hred : benchmarkHandler query searchType (Except.error e) (Except.ok rows) vMs pMs =
        HandlerResult.ok
          ⟨scoredSide (caughtVanilla query searchType (Except.error e) vMs) query,
            scoredSide (caughtParade query searchType (Except.ok rows) pMs) query,
            (accuracyWinnerOf
              (scoredSide (caughtVanilla query searchType (Except.error e) vMs) query).ndcgScore
              (scoredSide (caughtParade query searchType (Except.ok rows) pMs) query).ndcgScore).1,
            (accuracyWinnerOf
              (scoredSide (caughtVanilla query searchType (Except.error e) vMs) query).ndcgScore
              (scoredSide (caughtParade query searchType (Except.ok rows) pMs) query).ndcgScore).2,
            speedupOf (caughtVanilla query searchType (Except.error e) vMs).duration
              (caughtParade query searchType (Except.ok rows) pMs).duration⟩ := by
      simp [benchmarkHandler, hq']
    exact ⟨_, hred, rfl, rfl, rfl, rfl, rfl, rfl⟩

/-- Witness for C7: a concrete error on the fuzzy search type, and a concrete
one-failing-engine handler call. -/
theorem c7_query_errors_contained_witness :
    fuzzyStr ∈ benchSearchTypes ∧
    runVanillaQuery samsuStr fuzzyStr (Except.error boomStr) 7 = some ⟨0, 0, [], some boomStr⟩ ∧
    (∃ payload,
      benchmarkHandler samsuStr fuzzyStr (Except.error boomStr) (Except.ok [samsungRow]) 0 4 =
        HandlerResult.ok payload ∧
      payload.vanilla.results = [] ∧ payload.vanilla.duration = 0 ∧
      payload.vanilla.count = 0 ∧ payload.vanilla.error = some boomStr ∧
      payload.parade.results = [samsungRow] ∧ payload.parade.error = none) := by
  refine ⟨by decide, c7_query_errors_contained.1 samsuStr fuzzyStr boomStr 7 (by decide), ?_⟩
  exact c7_query_errors_contained.2.2 samsuStr fuzzyStr boomStr [samsungRow] 0 4 (by decide)

/-! ## Claim C4 -/

theorem insertLoop_eq_filter (execOk : InsertedRow → Bool) :
    ∀ products : List GoProduct,
      insertLoop execOk products = (products.map toInsertedRow).filter execOk := by
  intro products
  induction products with
  | nil => rfl
  | cons p rest ih =>
    by_cases h : execOk (toInsertedRow p) <;>
      simp [insertLoop, List.filter_cons, h, ih]

/-- C4: when the store rejects exactly one record of a batch, insertBatch still writes
the other B - 1 records inside the same transaction and commits it; the per-record
failure never aborts the batch, whose persisted rows are exactly the accepted rows in
input order. -/
theorem c4_partial_batch_tolerance (execOk : InsertedRow → Bool) (products : List GoProduct)
    (hone : (products.map toInsertedRow).countP (fun r => !execOk r) = 1) :
    (insertBatch execOk products).committed = true ∧
    (insertBatch execOk products).rows = (products.map toInsertedRow).filter execOk ∧
    (insertBatch execOk products).rows.length = products.length - 1 := by
  have hne : products ≠ [] := by
    intro h
    subst h
    simp at hone
  have hempty : products.isEmpty = false := by
    cases h : products.isEmpty
    · rfl
    · exact absurd (List.isEmpty_iff.mp h) hne
  have hrows : (insertBatch execOk products).rows =
      (products.map toInsertedRow).filter execOk := by
    simp [insertBatch, hempty, insertLoop_eq_filter]
  refine ⟨by simp [insertBatch, hempty], hrows, ?_⟩
  rw [hrows]
  have h2 := List.length_eq_countP_add_countP (p := execOk) (l := products.map toInsertedRow)
  have h4 : (products.map toInsertedRow).countP (fun r => decide ¬ execOk r = true) =
      (products.map toInsertedRow).countP (fun r => !execOk r) :=
    List.countP_congr (fun r _ => by cases execOk r <;> simp)
  rw [List.countP_eq_length_filter, h4, hone] at h2
  rw [List.length_map] at h2
  omega

/-- Witness for C4: a batch of three records of which the store rejects exactly the
second, leaving the other two persisted and the batch committed. -/
theorem c4_partial_batch_tolerance_witness :
    (c4Batch.map toInsertedRow).countP (fun r => !rejectSecondAsin r) = 1 ∧
    (insertBatch rejectSecondAsin c4Batch).committed = true ∧
    (insertBatch rejectSecondAsin c4Batch).rows =
      (c4Batch.map toInsertedRow).filter rejectSecondAsin ∧
    (insertBatch rejectSecondAsin c4Batch).rows.length = c4Batch.length - 1 := by
  have h : (c4Batch.map toInsertedRow).countP (fun r => !rejectSecondAsin r) = 1 := by decide
  have hc := c4_partial_batch_tolerance rejectSecondAsin c4Batch h
  exact ⟨h, hc.1, hc.2.1, hc.2.2⟩

/-! ## Claim C9 -/

theorem producerLoop_eq_filter (unmarshal : List Char → Option GoProduct) :
    ∀ lines : List (List Char),
      producerLoop unmarshal lines = (parsedProducts unmarshal lines).filter validProduct := by
  intro lines
  induction lines with
  | nil => rfl
  | cons line rest ih =>
    by_cases hb : line.isEmpty
    · simp [producerLoop, parsedProducts, hb, ih, List.filter_cons]
    · cases hp : unmarshal (pythonToJson line) with
      | none =>
        simp [producerLoop, parsedProducts, hb, hp, ih, List.filter_cons, List.filterMap_cons]
      | some p =>
        by_cases hv : validProduct p <;>
          simp [producerLoop, parsedProducts, hb, hp, hv, ih, List.filter_cons,
            List.filterMap_cons]

theorem chunkBatches_flatten : ∀ (n : ℕ) (l : List GoProduct), l.length ≤ n →
    (chunkBatches l).flatten = l := by
  intro n
  induction n with
  | zero =>
    intro l h
    have hl : l = [] := List.eq_nil_of_length_eq_zero (Nat.le_zero.mp h)
    subst hl
    simp [chunkBatches]
  | succ n ih =>
    intro l h
    by_cases hl : l.isEmpty
    · have hnil : l = [] := List.isEmpty_iff.mp hl
      subst hnil
      simp [chunkBatches]
    · rw [chunkBatches, dif_neg hl]
      simp only [List.flatten_cons]
      have hne : l ≠ [] := fun hn => by simp [hn] at hl
      have hlen1 : 0 < l.length := List.length_pos.mpr hne
      have hBS : 0 < BatchSize := by norm_num [BatchSize]
      have hrec : (l.drop BatchSize).length ≤ n := by
        simp only [List.length_drop]
        omega
      rw [ih _ hrec]
      exact List.take_append_drop BatchSize l

/-- C9: a parsed record is forwarded to storage - kept by the producer, appended to a
batch and submitted to the worker pool - iff both its identifier and title are
non-empty; records failing the check are skipped and not counted; and the submitted
batches carry exactly the kept records. -/
theorem c9_forwarded_iff_valid (unmarshal : List Char → Option GoProduct)
    (lines : List (List Char)) :
    producerLoop unmarshal lines = (parsedProducts unmarshal lines).filter validProduct ∧
    (∀ p, p ∈ producerLoop unmarshal lines ↔
      (p ∈ parsedProducts unmarshal lines ∧ p.asin ≠ [] ∧ p.title ≠ [])) ∧
    ingestedCount unmarshal lines =
      ((parsedProducts unmarshal lines).filter validProduct).length ∧
    (chunkBatches (producerLoop unmarshal lines)).flatten = producerLoop unmarshal lines := by
  have heq := producerLoop_eq_filter unmarshal lines
  refine ⟨heq, ?_, ?_, ?_⟩
  · intro p
    rw [heq, List.mem_filter]
    simp [validProduct]
  · simp [ingestedCount, heq]
  · exact chunkBatches_flatten _ _ le_rfl

/-! ## Claim C8 -/

theorem chunkBatches_short {l : List GoProduct} (hne : l ≠ []) (hlen : l.length ≤ BatchSize) :
    chunkBatches l = [l] := by
  have hl : l.isEmpty = false := by
    cases h : l.isEmpty
    · rfl
    · exact absurd (List.isEmpty_iff.mp h) hne
  rw [chunkBatches, dif_neg (by simp [hl]), List.take_of_length_le hlen,
    List.drop_eq_nil_of_le hlen]
  simp [chunkBatches]

/-- C8 counterexample: two valid records are parsed, validated, and counted
(processedCount reaches 2), but the store rejects one of the two rows, so only one
record is actually written; the final counter value differs from the number of records
successfully written to the store. -/
theorem c8_counterexample_counter_counts_failed_writes :
    ingestedCount demoUnmarshal demoLines = 2 ∧
    (writtenRows demoUnmarshal rejectSecondAsin demoLines).length = 1 ∧
    ingestedCount demoUnmarshal demoLines ≠
      (writtenRows demoUnmarshal rejectSecondAsin demoLines).length := by
  have hloop : producerLoop demoUnmarshal demoLines = [demoProdA, demoProdB] := by decide
  have hchunk : chunkBatches [demoProdA, demoProdB] = [[demoProdA, demoProdB]] :=
    chunkBatches_short (by decide) (by decide)
  have hw : (writtenRows demoUnmarshal rejectSecondAsin demoLines).length = 1 := by
    rw [writtenRows, hloop, hchunk]
    decide
  have hc : ingestedCount demoUnmarshal demoLines = 2 := by
    rw [ingestedCount, hloop]
    rfl
  exact ⟨hc, hw, by rw [hc, hw]; decide⟩

theorem producerLoop_length_of_valid (unmarshal : List Char → Option GoProduct) :
    ∀ lines : List (List Char),
      (∀ line ∈ lines, line ≠ [] ∧ (unmarshal (pythonToJson line)).any validProduct = true) →
      (producerLoop unmarshal lines).length = lines.length := by
  intro lines
  induction lines with
  | nil => intro _; rfl
  | cons line rest ih =>
    intro h
    obtain ⟨hne, hany⟩ := h line (List.mem_cons_self line rest)
    have hbe : line.isEmpty = false := by
      cases hb : line.isEmpty
      · rfl
      · exact absurd (List.isEmpty_iff.mp hb) hne
    cases hp : unmarshal (pythonToJson line) with
    | none => rw [hp] at hany; simp [Option.any] at hany
    | some p =>
      rw [hp] at hany
      simp only [Option.any] at hany
      simp [producerLoop, hbe, hp, hany,
        ih (fun l hl => h l (List.mem_cons_of_mem line hl))]

theorem writtenRows_eq_of_all_ok (unmarshal : List Char → Option GoProduct)
    (execOk : InsertedRow → Bool) (lines : List (List Char))
    (hok : ∀ p ∈ producerLoop unmarshal lines, execOk (toInsertedRow p) = true) :
    writtenRows unmarshal execOk lines = (producerLoop unmarshal lines).map toInsertedRow := by
  unfold writtenRows
  have hmem : ∀ b ∈ chunkBatches (producerLoop unmarshal lines), ∀ p ∈ b,
      p ∈ producerLoop unmarshal lines := by
    intro b hb p hp
    have hfl := chunkBatches_flatten (producerLoop unmarshal lines).length
      (producerLoop unmarshal lines) le_rfl
    rw [← hfl]
    exact List.mem_flatten.mpr ⟨b, hb, hp⟩
  have hbatch : ∀ b ∈ chunkBatches (producerLoop unmarshal lines),
      (insertBatch execOk b).rows = b.map toInsertedRow := by
    intro b hb
    by_cases hbe : b.isEmpty
    · have hnil : b = [] := List.isEmpty_iff.mp hbe
      subst hnil
      simp [insertBatch]
    · simp only [insertBatch, hbe, Bool.false_eq_true, if_false]
      rw [insertLoop_eq_filter]
      apply List.filter_eq_self.mpr
      intro r hr
      obtain ⟨p, hpmem, rfl⟩ := List.mem_map.1 hr
      exact hok p (hmem b hb p hpmem)
  rw [List.map_congr_left hbatch, ← List.map_flatten toInsertedRow,
    chunkBatches_flatten _ _ le_rfl]

/-- C8 amended: processedCount counts the records the producer validates and hands to
the writers - the increment happens at enqueue time, before any write - so it equals
the number of records successfully written only when no per-record write failure
occurs. For a stream of N lines that all parse to valid records and a store that
accepts every forwarded row, the counter and the number of written rows are both
exactly N, and the number of written rows is invariant under any reassignment
(permutation) of the submitted batches to workers. -/
theorem c8_amended_counter_equals_written_when_no_failures
    (unmarshal : List Char → Option GoProduct) (execOk : InsertedRow → Bool)
    (lines : List (List Char))
    (hvalid : ∀ line ∈ lines, line ≠ [] ∧ (unmarshal (pythonToJson line)).any validProduct = true)
    (hok : ∀ p ∈ producerLoop unmarshal lines, execOk (toInsertedRow p) = true) :
    ingestedCount unmarshal lines = lines.length ∧
    (writtenRows unmarshal execOk lines).length = lines.length ∧
    (∀ batches' : List (List GoProduct),
      List.Perm batches' (chunkBatches (producerLoop unmarshal lines)) →
      ((batches'.map (fun b => (insertBatch execOk b).rows)).flatten).length =
        lines.length) := by
  have hcount : (producerLoop unmarshal lines).length = lines.length :=
    producerLoop_length_of_valid unmarshal lines hvalid
  have hwr := writtenRows_eq_of_all_ok unmarshal execOk lines hok
  have hwlen : (writtenRows unmarshal execOk lines).length = lines.length := by
    rw [hwr, List.length_map, hcount]
  refine ⟨hcount, hwlen, ?_⟩
  intro batches' hperm
  have hmap : List.Perm (batches'.map (fun b => (insertBatch execOk b).rows))
      ((chunkBatches (producerLoop unmarshal lines)).map (fun b => (insertBatch execOk b).rows)) :=
    hperm.map _
  have hfl := hmap.flatten
  rw [hfl.length_eq]
  exact hwlen

/-- Witness for the amended C8: the two demo lines with an all-accepting store count and
write exactly 2 records. -/
theorem c8_amended_counter_equals_written_when_no_failures_witness :
    (∀ line ∈ demoLines, line ≠ [] ∧
      (demoUnmarshal (pythonToJson line)).any validProduct = true) ∧
    (∀ p ∈ producerLoop demoUnmarshal demoLines, acceptAll (toInsertedRow p) = true) ∧
    ingestedCount demoUnmarshal demoLines = demoLines.length ∧
    (writtenRows demoUnmarshal acceptAll demoLines).length = demoLines.length := by
  have h1 : ∀ line ∈ demoLines, line ≠ [] ∧
      (demoUnmarshal (pythonToJson line)).any validProduct = true := by decide
  have h2 : ∀ p ∈ producerLoop demoUnmarshal demoLines, acceptAll (toInsertedRow p) = true := by
    decide
  have hc := c8_amended_counter_equals_written_when_no_failures demoUnmarshal acceptAll
    demoLines h1 h2
  exact ⟨h1, h2, hc.1, hc.2.1⟩

end PgBench
